import Mathlib

/-!
# Tasky task manager (`src/script.js`): store and view projection

A shallow embedding of the `TaskManager` class of `src/script.js`.

* A task is the object literal built by `createTask`: eight string-valued
  properties.
* The object passed to `updateTask` is merged with an object spread, so any of
  the eight properties may be present in it or absent from it.
* The browser built-ins the class calls (`JSON.stringify`, `JSON.parse`, the
  `Date` string constructor) are the fields of `Platform`; clock readings
  (`Date.now()`, `new Date()`) and the answer of `confirm` are arguments of the
  operation that makes the call. Time values are integers (milliseconds since
  the epoch), an invalid date is `none`.
* `localStorage` is a map from keys to stored strings; the three columns and
  the three counters of the page are the `Dom` record that `renderTasks`
  rewrites. One rendering reads the clock once.
* `Array.prototype.sort` is a stable insertion sort driven by the comparator.
* `browser` is a concrete `Platform` (JSON text of task lists, date-only ISO
  strings) on which every operation evaluates; the general theorems hold for
  every platform.
-/

namespace Tasky

/-! ## Data model -/

/-- The task object built at `createTask` (script.js lines 36-45). -/
structure Task where
  id : String
  title : String
  description : String
  subject : String
  dueDate : String
  priority : String
  status : String
  createdAt : String
deriving DecidableEq

/-- The form record `data` read by `createTask`: `data.title`, ...,
`data.status` (script.js lines 183-190). -/
structure TaskData where
  title : String
  description : String
  subject : String
  dueDate : String
  priority : String
  status : String
deriving DecidableEq

/-- The object spread over a task by `updateTask`: each task property is either
supplied (`some v`) or absent (`none`). -/
structure UpdateData where
  id : Option String
  title : Option String
  description : Option String
  subject : Option String
  dueDate : Option String
  priority : Option String
  status : Option String
  createdAt : Option String
deriving DecidableEq

/-- The empty object: no property supplied. -/
def UpdateData.empty : UpdateData :=
  ⟨none, none, none, none, none, none, none, none⟩

/-- The six-property object that `saveTask` hands to `updateTask`
(script.js lines 183-193). -/
def TaskData.toUpdate (d : TaskData) : UpdateData :=
  ⟨none, some d.title, some d.description, some d.subject, some d.dueDate,
    some d.priority, some d.status, none⟩

/-- The object spread `{ ...task, ...data }` (script.js line 54): a property
supplied by `data` wins, any other keeps the value of `task`. -/
def spread (task : Task) (data : UpdateData) : Task :=
  { id := data.id.getD task.id
    title := data.title.getD task.title
    description := data.description.getD task.description
    subject := data.subject.getD task.subject
    dueDate := data.dueDate.getD task.dueDate
    priority := data.priority.getD task.priority
    status := data.status.getD task.status
    createdAt := data.createdAt.getD task.createdAt }

/-- Browser built-ins used by the class. `parse` is `none` when `JSON.parse`
throws; `parseDate s` is the time value (milliseconds since the epoch) of
`new Date(s)`, `none` for an invalid date (time value `NaN`). -/
structure Platform where
  stringify : List Task → String
  parse : String → Option (List Task)
  parseDate : String → Option Int

/-- The `localStorage` object: key to stored string, `none` for a missing key. -/
abbrev Storage := String → Option String

/-- Models `localStorage.getItem`. -/
def getItem (st : Storage) (key : String) : Option String := st key

/-- Models `localStorage.setItem`. -/
def setItem (st : Storage) (key value : String) : Storage :=
  fun k => if k = key then some value else st k

/-- The part of the page written by `renderTasks`: the cards appended to the
three columns (one per task, in order) and the text of the three counters. -/
structure Dom where
  inProgressColumn : List Task
  completedColumn : List Task
  overDueColumn : List Task
  inProgressCount : Nat
  completedCount : Nat
  overDueCount : Nat

/-- The `TaskManager` instance together with the storage and page it acts on. -/
structure State where
  tasks : List Task
  currentFilter : String
  localStorage : Storage
  dom : Dom

/-! ## Persistence (script.js lines 26-33) -/

/-- Models `loadTasks`: `stored ? JSON.parse(stored) : []`. A missing key and
the empty string are both falsy. `none` is a thrown parse error. -/
def loadTasks (P : Platform) (st : Storage) : Option (List Task) :=
  match getItem st "taskyTasks" with
  | none => some []
  | some stored => if stored = "" then some [] else P.parse stored

/-- Models `saveTasks`. -/
def saveTasks (P : Platform) (s : State) : State :=
  { s with localStorage := setItem s.localStorage "taskyTasks" (P.stringify s.tasks) }

/-! ## Classification and rendering (script.js lines 68-129) -/

/-- The comparison `dueDate < today` of two `Date` objects: numeric comparison
of time values, false when the left one is `NaN`. -/
def dateLt (dueDate : Option Int) (today : Int) : Bool :=
  match dueDate with
  | some d => decide (d < today)
  | none => false

/-- Models `getTaskStatus`; `today` is the clock reading `new Date()`. -/
def getTaskStatus (P : Platform) (today : Int) (task : Task) : String :=
  if task.status = "completed" then "completed"
  else if dateLt (P.parseDate task.dueDate) today then "over-due"
  else "in-progress"

/-- The object `tasksByStatus` of `renderTasks` (script.js lines 91-95). -/
structure TasksByStatus where
  inProgress : List Task
  completed : List Task
  overDue : List Task

/-- The statement `tasksByStatus[status].push(task)` (script.js line 99). -/
def TasksByStatus.push (b : TasksByStatus) (status : String) (task : Task) : TasksByStatus :=
  if status = "in-progress" then { b with inProgress := b.inProgress ++ [task] }
  else if status = "completed" then { b with completed := b.completed ++ [task] }
  else if status = "over-due" then { b with overDue := b.overDue ++ [task] }
  else b

/-- The list `filteredTasks` of `renderTasks` (script.js lines 86-89). -/
def filteredTasks (s : State) : List Task :=
  if s.currentFilter ≠ "all" then s.tasks.filter (fun t => decide (t.priority = s.currentFilter))
  else s.tasks

/-- The `forEach` loop of script.js lines 97-100 over a list of tasks. -/
def groupByStatus (P : Platform) (today : Int) (ts : List Task) : TasksByStatus :=
  ts.foldl (fun acc task => acc.push (getTaskStatus P today task) task) ⟨[], [], []⟩

/-- Models `renderTasks`: every `getTaskStatus` call of one rendering reads the
clock as `today`. -/
def renderTasks (P : Platform) (today : Int) (s : State) : State :=
  let tasksByStatus := groupByStatus P today (filteredTasks s)
  { s with dom :=
      { inProgressColumn := tasksByStatus.inProgress
        completedColumn := tasksByStatus.completed
        overDueColumn := tasksByStatus.overDue
        inProgressCount := tasksByStatus.inProgress.length
        completedCount := tasksByStatus.completed.length
        overDueCount := tasksByStatus.overDue.length } }

/-! ## Store operations (script.js lines 35-66, 229-237) -/

/-- Models `createTask`. `now` is the reading `Date.now()`, `createdAt` the
string `new Date().toISOString()`, `today` the clock of the rendering. -/
def createTask (P : Platform) (now : Int) (createdAt : String) (today : Int)
    (data : TaskData) (s : State) : State :=
  let task : Task :=
    { id := toString now
      title := data.title
      description := data.description
      subject := data.subject
      dueDate := data.dueDate
      priority := data.priority
      status := data.status
      createdAt := createdAt }
  renderTasks P today (saveTasks P { s with tasks := s.tasks ++ [task] })

/-- Models `Array.prototype.findIndex`: position of the first element that
satisfies `p`, `none` for the result `-1`. -/
def findIndex (p : Task → Bool) : List Task → Option Nat
  | [] => none
  | t :: ts => if p t then some 0 else (findIndex p ts).map (· + 1)

/-- Models `updateTask`. -/
def updateTask (P : Platform) (today : Int) (id : String) (data : UpdateData)
    (s : State) : State :=
  match findIndex (fun t => decide (t.id = id)) s.tasks with
  | none => s
  | some index =>
    match s.tasks[index]? with
    | none => s
    | some old =>
      renderTasks P today (saveTasks P { s with tasks := s.tasks.set index (spread old data) })

/-- Models `deleteTask`; `confirmed` is the answer of the `confirm` dialog. -/
def deleteTask (P : Platform) (today : Int) (confirmed : Bool) (id : String)
    (s : State) : State :=
  if confirmed then
    renderTasks P today
      (saveTasks P { s with tasks := s.tasks.filter (fun t => decide (t.id ≠ id)) })
  else s

/-- Models `filterByPriority`. -/
def filterByPriority (P : Platform) (today : Int) (priority : String) (s : State) : State :=
  renderTasks P today { s with currentFilter := priority }

/-- The comparator `(a, b) => new Date(a.dueDate) - new Date(b.dueDate)`;
`none` is the result `NaN`. -/
def compareDueDate (P : Platform) (a b : Task) : Option Int :=
  match P.parseDate a.dueDate, P.parseDate b.dueDate with
  | some x, some y => some (x - y)
  | _, _ => none

/-- How `Array.prototype.sort` reads the comparator result for `(a, b)` when it
decides whether `a` stays before `b`: it does unless the result is positive, a
`NaN` result counting as `0`. -/
def notAfter (cmp : Task → Task → Option Int) (a b : Task) : Bool :=
  match cmp a b with
  | some v => decide (v ≤ 0)
  | none => true

/-- Insertion of `a` in front of a sorted list: `a` moves past the elements it
must follow and stops before the first one it may precede, so it stays before
the elements it compares equal to. -/
def sortInsert (cmp : Task → Task → Option Int) (a : Task) : List Task → List Task
  | [] => [a]
  | b :: bs => if notAfter cmp a b then a :: b :: bs else b :: sortInsert cmp a bs

/-- Models `Array.prototype.sort` with a comparator as a stable insertion sort.
For a consistent comparator the language fixes the result (sorted, equal
elements in their original order), which is what a stable sort computes. -/
def sort (cmp : Task → Task → Option Int) : List Task → List Task
  | [] => []
  | a :: as => sortInsert cmp a (sort cmp as)

/-- Models `sortByDate`. -/
def sortByDate (P : Platform) (today : Int) (s : State) : State :=
  renderTasks P today { s with tasks := sort (compareDueDate P) s.tasks }

/-- Both due dates are valid and the first is not later than the second. -/
def dueNotLater (P : Platform) (a b : Task) : Prop :=
  ∃ x y, P.parseDate a.dueDate = some x ∧ P.parseDate b.dueDate = some y ∧ x ≤ y

/-! ## Decimal strings -/

/-- The number written by a list of decimal digits, continuing from `acc`. -/
def digitsValue (acc : Nat) : List Char → Nat
  | [] => acc
  | c :: cs => digitsValue (acc * 10 + (c.toNat - 48)) cs

/-- The integer written by a decimal string with an optional leading minus
sign. -/
def readInt (s : String) : Int :=
  match s.data with
  | [] => 0
  | c :: cs => if c = '-' then -((digitsValue 0 cs : Nat) : Int) else (digitsValue 0 (c :: cs) : Nat)

/-! ## A concrete platform

An instance of `Platform` on which the operations can be evaluated: JSON text
for lists of tasks, and the date-only form `YYYY-MM-DD` of the `Date` string
constructor (the form an `<input type="date">` yields), read as midnight UTC.
-/

/-- Lower-case hexadecimal digit of a number below sixteen. -/
def hexDigit (n : Nat) : Char :=
  Char.ofNat (if n < 10 then 48 + n else 87 + n)

/-- Value of a hexadecimal digit. -/
def hexValue (c : Char) : Option Nat :=
  if 48 ≤ c.toNat ∧ c.toNat ≤ 57 then some (c.toNat - 48)
  else if 97 ≤ c.toNat ∧ c.toNat ≤ 102 then some (c.toNat - 87)
  else if 65 ≤ c.toNat ∧ c.toNat ≤ 70 then some (c.toNat - 55)
  else none

/-- The JSON escape of one character, as `JSON.stringify` writes it. -/
def escapeChar (c : Char) : List Char :=
  if c = '"' then ['\\', '"']
  else if c = '\\' then ['\\', '\\']
  else if c = '\x08' then ['\\', 'b']
  else if c = '\x0c' then ['\\', 'f']
  else if c = '\n' then ['\\', 'n']
  else if c = '\r' then ['\\', 'r']
  else if c = '\t' then ['\\', 't']
  else if c.toNat < 32 then
    ['\\', 'u', '0', '0', hexDigit (c.toNat / 16), hexDigit (c.toNat % 16)]
  else [c]

/-- The escaped characters of a string, without the enclosing quotes. -/
def escape : List Char → List Char
  | [] => []
  | c :: cs => escapeChar c ++ escape cs

/-- A JSON string literal. -/
def quote (s : String) : List Char :=
  '"' :: (escape s.data ++ ['"'])

/-- One member `"key":"value"` of a JSON object. -/
def member (key value : String) : List Char :=
  quote key ++ ':' :: quote value

/-- The JSON text of a task object, properties in creation order. -/
def stringifyTask (t : Task) : List Char :=
  '{' :: (member "id" t.id ++ ',' :: (member "title" t.title ++ ',' ::
    (member "description" t.description ++ ',' :: (member "subject" t.subject ++ ',' ::
    (member "dueDate" t.dueDate ++ ',' :: (member "priority" t.priority ++ ',' ::
    (member "status" t.status ++ ',' :: (member "createdAt" t.createdAt ++ ['}']))))))))

/-- The task objects of an array, separated by commas. -/
def joinTasks : List Task → List Char
  | [] => []
  | t :: ts =>
    match ts with
    | [] => stringifyTask t
    | _ :: _ => stringifyTask t ++ ',' :: joinTasks ts

/-- JSON text of an array of tasks. -/
def jsonStringify (ts : List Task) : String :=
  String.mk ('[' :: (joinTasks ts ++ [']']))

/-- Where the reader stands inside a string literal. -/
inductive Esc where
  | plain
  | slash
  | hex (remaining : Nat) (code : Nat)

/-- Where the reader stands in the text of an array of objects. -/
inductive Mode where
  | start
  | arrayOpen
  | afterItem
  | arrayComma
  | objectOpen
  | str (isKey : Bool) (e : Esc)
  | afterKey
  | beforeValue
  | afterValue
  | objectComma
  | finished

/-- State of the JSON reader: the string being read (latest character first),
the last key, the members of the object being read (latest first) and the
tasks read so far. -/
structure Reader where
  mode : Mode
  buffer : List Char
  keyName : String
  members : List (String × String)
  items : List Task

/-- The character denoted by a one-letter escape. -/
def unescape (c : Char) : Option Char :=
  if c = '"' then some '"'
  else if c = '\\' then some '\\'
  else if c = '/' then some '/'
  else if c = 'b' then some '\x08'
  else if c = 'f' then some '\x0c'
  else if c = 'n' then some '\n'
  else if c = 'r' then some '\r'
  else if c = 't' then some '\t'
  else none

/-- One character inside a string literal: the next escape state, the buffer,
and whether the literal was closed. -/
def stringStep (e : Esc) (buffer : List Char) (c : Char) : Option (Esc × List Char × Bool) :=
  match e with
  | .plain =>
    if c = '"' then some (.plain, buffer, true)
    else if c = '\\' then some (.slash, buffer, false)
    else if c.toNat < 32 then none
    else some (.plain, c :: buffer, false)
  | .slash =>
    if c = 'u' then some (.hex 4 0, buffer, false)
    else (unescape c).map (fun d => (.plain, d :: buffer, false))
  | .hex remaining code =>
    (hexValue c).map (fun v =>
      if remaining ≤ 1 then (.plain, Char.ofNat (code * 16 + v) :: buffer, false)
      else (.hex (remaining - 1) (code * 16 + v), buffer, false))

/-- A task from the members of an object; a later member of the same key wins,
members of other keys are ignored, and an object that lacks one of the eight
properties is not a task. -/
def mkTask (members : List (String × String)) : Option Task :=
  match members.lookup "id", members.lookup "title", members.lookup "description",
    members.lookup "subject", members.lookup "dueDate", members.lookup "priority",
    members.lookup "status", members.lookup "createdAt" with
  | some i, some t, some d, some s, some due, some p, some st, some c =>
    some ⟨i, t, d, s, due, p, st, c⟩
  | _, _, _, _, _, _, _, _ => none

/-- The closing brace of an object. -/
def closeObject (r : Reader) : Option Reader :=
  (mkTask r.members).map (fun t =>
    { r with mode := .afterItem, items := r.items ++ [t], members := [] })

/-- One character of the JSON text. -/
def readChar (r : Reader) (c : Char) : Option Reader :=
  match r.mode with
  | .start => if c = '[' then some { r with mode := .arrayOpen } else none
  | .arrayOpen =>
    if c = '{' then some { r with mode := .objectOpen, members := [] }
    else if c = ']' then some { r with mode := .finished }
    else none
  | .afterItem =>
    if c = ',' then some { r with mode := .arrayComma }
    else if c = ']' then some { r with mode := .finished }
    else none
  | .arrayComma =>
    if c = '{' then some { r with mode := .objectOpen, members := [] } else none
  | .objectOpen =>
    if c = '"' then some { r with mode := .str true .plain, buffer := [] }
    else if c = '}' then closeObject r
    else none
  | .str isKey e =>
    (stringStep e r.buffer c).map (fun (e', buffer, closed) =>
      if closed then
        if isKey then
          { r with mode := .afterKey, keyName := String.mk buffer.reverse, buffer := [] }
        else
          { r with mode := .afterValue, buffer := []
                   members := (r.keyName, String.mk buffer.reverse) :: r.members }
      else { r with mode := .str isKey e', buffer := buffer })
  | .afterKey => if c = ':' then some { r with mode := .beforeValue } else none
  | .beforeValue =>
    if c = '"' then some { r with mode := .str false .plain, buffer := [] } else none
  | .afterValue =>
    if c = ',' then some { r with mode := .objectComma }
    else if c = '}' then closeObject r
    else none
  | .objectComma =>
    if c = '"' then some { r with mode := .str true .plain, buffer := [] } else none
  | .finished => none

/-- The reader run over a text. -/
def readChars (r : Reader) : List Char → Option Reader
  | [] => some r
  | c :: cs =>
    match readChar r c with
    | some r' => readChars r' cs
    | none => none

/-- Reads the JSON text of an array of task objects (no white space); `none`
for any other text. -/
def jsonParse (s : String) : Option (List Task) :=
  match readChars ⟨.start, [], "", [], []⟩ s.data with
  | some ⟨.finished, _, _, _, items⟩ => some items
  | _ => none

/-- Value of a decimal digit. -/
def digitValue (c : Char) : Option Nat :=
  if 48 ≤ c.toNat ∧ c.toNat ≤ 57 then some (c.toNat - 48) else none

/-- Leap years of the Gregorian calendar. -/
def isLeapYear (y : Nat) : Bool :=
  (y % 4 == 0 && y % 100 != 0) || y % 400 == 0

/-- Number of days of month `m` (1 to 12) of year `y`. -/
def daysInMonth (y m : Nat) : Nat :=
  if m = 2 then (if isLeapYear y then 29 else 28)
  else if m = 4 ∨ m = 6 ∨ m = 9 ∨ m = 11 then 30
  else 31

/-- Days from 1970-01-01 to the given civil date. -/
def daysFromEpoch (y m d : Nat) : Int :=
  let beforeYear := y * 365 + (y + 3) / 4 - (y + 99) / 100 + (y + 399) / 400
  let beforeMonth := ((List.range (m - 1)).map (fun i => daysInMonth y (i + 1))).sum
  ((beforeYear + beforeMonth + (d - 1) : Nat) : Int) - 719528

/-- Time value of a date-only string `YYYY-MM-DD` (midnight UTC); every other
string is an invalid date. -/
def parseIsoDate (s : String) : Option Int :=
  match s.data with
  | [y1, y2, y3, y4, h1, m1, m2, h2, d1, d2] =>
    match digitValue y1, digitValue y2, digitValue y3, digitValue y4,
      digitValue m1, digitValue m2, digitValue d1, digitValue d2 with
    | some a, some b, some c, some e, some f, some g, some h, some i =>
      let y := 1000 * a + 100 * b + 10 * c + e
      let m := 10 * f + g
      let d := 10 * h + i
      if h1 = '-' ∧ h2 = '-' ∧ 1 ≤ m ∧ m ≤ 12 ∧ 1 ≤ d ∧ d ≤ daysInMonth y m then
        some (daysFromEpoch y m d * 86400000)
      else none
    | _, _, _, _, _, _, _, _ => none
  | _ => none

/-- The concrete platform. -/
def browser : Platform :=
  { stringify := jsonStringify
    parse := jsonParse
    parseDate := parseIsoDate }

/-- An empty `localStorage`. -/
def emptyStorage : Storage := fun _ => none

/-- An empty page. -/
def emptyDom : Dom := ⟨[], [], [], 0, 0, 0⟩

/-- The state of a first start: no stored tasks, filter 'all'. -/
def initialState : State := ⟨[], "all", emptyStorage, emptyDom⟩

/-- The law of `JSON.stringify` and `JSON.parse` on lists of tasks: the text of
a list is never the empty string and is parsed back to the same list. -/
def Platform.RoundTrips (P : Platform) : Prop :=
  ∀ ts : List Task, P.parse (P.stringify ts) = some ts ∧ P.stringify ts ≠ ""

/-! ## Sample data -/

/-- A clock reading: 2023-11-14T22:13:20Z in milliseconds. -/
def sampleNow : Int := 1700000000000

/-- The ISO string of `sampleNow`. -/
def sampleCreatedAt : String := "2023-11-14T22:13:20.000Z"

/-- A form record. -/
def sampleData : TaskData :=
  ⟨"Essay", "Write the history essay", "History", "2030-01-01", "high", "in-progress"⟩

/-- A task due before `sampleNow`, not completed. -/
def taskA : Task :=
  ⟨"1", "Essay", "Write the history essay", "History", "2020-01-01", "low", "in-progress",
    "2019-12-01T08:00:00.000Z"⟩

/-- A task due after `sampleNow`, not completed. -/
def taskB : Task :=
  ⟨"2", "Lab", "Finish the lab report", "Physics", "2030-01-01", "high", "in-progress",
    "2019-12-02T08:00:00.000Z"⟩

/-- A completed task due before `sampleNow`. -/
def taskC : Task :=
  ⟨"3", "Quiz", "Revise for the quiz", "Maths", "2020-06-15", "medium", "completed",
    "2019-12-03T08:00:00.000Z"⟩

/-- A task that shares the id of `taskA`; due before `sampleNow`, not completed. -/
def taskA2 : Task :=
  ⟨"1", "Reading", "Read chapter four", "English", "2021-03-01", "low", "in-progress",
    "2019-12-01T08:00:00.000Z"⟩

/-- A state holding the given tasks under the given filter, nothing stored or
rendered yet. -/
def stateOf (tasks : List Task) (currentFilter : String) : State :=
  ⟨tasks, currentFilter, emptyStorage, emptyDom⟩

/-- The object `{ status: 'completed' }`. -/
def completedUpdate : UpdateData :=
  { UpdateData.empty with status := some "completed" }

/-! ## Classification: basic facts -/

theorem getTaskStatus_cases (P : Platform) (today : Int) (t : Task) :
    getTaskStatus P today t = "in-progress" ∨ getTaskStatus P today t = "completed" ∨
      getTaskStatus P today t = "over-due" := by
  unfold getTaskStatus
  split
  · exact Or.inr (Or.inl rfl)
  · split
    · exact Or.inr (Or.inr rfl)
    · exact Or.inl rfl

theorem dateLt_iff (dueDate : Option Int) (today : Int) :
    dateLt dueDate today = true ↔ ∃ d, dueDate = some d ∧ d < today := by
  cases dueDate with
  | none => simp [dateLt]
  | some d => simp [dateLt]

/-- C1: a task whose status is 'completed' is classified 'completed' at every
current time and for every due date string, valid or not. -/
theorem getTaskStatus_completed (P : Platform) (today : Int) (t : Task)
    (h : t.status = "completed") : getTaskStatus P today t = "completed" := by
  simp [getTaskStatus, h]

/-- C2: for a task whose status is not 'completed', the classification is
'over-due' exactly when the due date string denotes an instant strictly earlier
than the current time, and 'in-progress' in every other case; a due instant
equal to the current time gives 'in-progress'. -/
theorem getTaskStatus_not_completed (P : Platform) (today : Int) (t : Task)
    (h : t.status ≠ "completed") :
    (getTaskStatus P today t = "over-due" ↔
        ∃ d, P.parseDate t.dueDate = some d ∧ d < today) ∧
      ((¬ ∃ d, P.parseDate t.dueDate = some d ∧ d < today) →
        getTaskStatus P today t = "in-progress") ∧
      (P.parseDate t.dueDate = some today → getTaskStatus P today t = "in-progress") := by
  have hlt := dateLt_iff (P.parseDate t.dueDate) today
  refine ⟨?_, ?_, ?_⟩
  · rw [← hlt]
    unfold getTaskStatus
    rw [if_neg h]
    by_cases hd : dateLt (P.parseDate t.dueDate) today = true
    · simp [hd]
    · simp only [hd, Bool.false_eq_true, if_false, iff_false]
      decide
  · intro hno
    have hd : ¬ dateLt (P.parseDate t.dueDate) today = true := fun hd => hno (hlt.mp hd)
    unfold getTaskStatus
    rw [if_neg h, if_neg hd]
  · intro heq
    unfold getTaskStatus
    rw [if_neg h, heq]
    simp [dateLt]

/-! ## Rendering: the three buckets -/

/-- The loop of `renderTasks`, started from any accumulator, appends to each
bucket the tasks of that classification, in list order. -/
theorem foldl_push_eq (P : Platform) (today : Int) (ts : List Task) (acc : TasksByStatus) :
    ts.foldl (fun acc task => acc.push (getTaskStatus P today task) task) acc =
      { inProgress := acc.inProgress ++
          ts.filter (fun t => decide (getTaskStatus P today t = "in-progress"))
        completed := acc.completed ++
          ts.filter (fun t => decide (getTaskStatus P today t = "completed"))
        overDue := acc.overDue ++
          ts.filter (fun t => decide (getTaskStatus P today t = "over-due")) } := by
  induction ts generalizing acc with
  | nil => simp
  | cons t ts ih =>
    rw [List.foldl_cons, ih]
    rcases getTaskStatus_cases P today t with h | h | h <;>
      simp [TasksByStatus.push, h, List.filter_cons]

theorem groupByStatus_eq (P : Platform) (today : Int) (ts : List Task) :
    groupByStatus P today ts =
      { inProgress := ts.filter (fun t => decide (getTaskStatus P today t = "in-progress"))
        completed := ts.filter (fun t => decide (getTaskStatus P today t = "completed"))
        overDue := ts.filter (fun t => decide (getTaskStatus P today t = "over-due")) } := by
  unfold groupByStatus
  rw [foldl_push_eq]
  simp

theorem mem_filteredTasks (s : State) (t : Task) :
    t ∈ filteredTasks s ↔ t ∈ s.tasks ∧ (s.currentFilter = "all" ∨ t.priority = s.currentFilter) := by
  unfold filteredTasks
  by_cases h : s.currentFilter = "all"
  · simp [h]
  · simp [h]

/-- Splitting a list by classification and concatenating the three parts gives
a rearrangement of the list. -/
theorem buckets_perm (P : Platform) (today : Int) (ts : List Task) :
    (ts.filter (fun t => decide (getTaskStatus P today t = "in-progress")) ++
      ts.filter (fun t => decide (getTaskStatus P today t = "completed")) ++
      ts.filter (fun t => decide (getTaskStatus P today t = "over-due"))).Perm ts := by
  induction ts with
  | nil => simp
  | cons t ts ih =>
    rcases getTaskStatus_cases P today t with h | h | h
    · simpa [List.filter_cons, h] using ih
    · simp only [List.filter_cons, h, decide_True, if_true]
      have h1 : decide ("completed" = "in-progress") = false := by decide
      have h2 : decide ("completed" = "over-due") = false := by decide
      simp only [h1, h2, Bool.false_eq_true, if_false]
      refine List.Perm.trans ?_ (List.Perm.cons t ih)
      simp only [List.append_assoc, List.cons_append]
      exact List.perm_middle
    · simp only [List.filter_cons, h, decide_True, if_true]
      have h1 : decide ("over-due" = "in-progress") = false := by decide
      have h2 : decide ("over-due" = "completed") = false := by decide
      simp only [h1, h2, Bool.false_eq_true, if_false]
      refine List.Perm.trans ?_ (List.Perm.cons t ih)
      exact List.perm_middle

/-- C3: after `renderTasks` the three columns hold exactly the filtered tasks
(every task when the filter is 'all', otherwise the tasks whose priority equals
the filter), no task is in two columns, the columns together are a
rearrangement of the filtered list, and the three displayed counts are the
column sizes and add up to the length of the filtered list. -/
theorem renderTasks_partition (P : Platform) (today : Int) (s : State) :
    (∀ t, (t ∈ (renderTasks P today s).dom.inProgressColumn ∨
            t ∈ (renderTasks P today s).dom.completedColumn ∨
            t ∈ (renderTasks P today s).dom.overDueColumn) ↔
          (t ∈ s.tasks ∧ (s.currentFilter = "all" ∨ t.priority = s.currentFilter))) ∧
      (∀ t, ¬ (t ∈ (renderTasks P today s).dom.inProgressColumn ∧
              t ∈ (renderTasks P today s).dom.completedColumn) ∧
            ¬ (t ∈ (renderTasks P today s).dom.inProgressColumn ∧
              t ∈ (renderTasks P today s).dom.overDueColumn) ∧
            ¬ (t ∈ (renderTasks P today s).dom.completedColumn ∧
              t ∈ (renderTasks P today s).dom.overDueColumn)) ∧
      ((renderTasks P today s).dom.inProgressColumn ++
          (renderTasks P today s).dom.completedColumn ++
          (renderTasks P today s).dom.overDueColumn).Perm (filteredTasks s) ∧
      (renderTasks P today s).dom.inProgressCount =
          (renderTasks P today s).dom.inProgressColumn.length ∧
      (renderTasks P today s).dom.completedCount =
          (renderTasks P today s).dom.completedColumn.length ∧
      (renderTasks P today s).dom.overDueCount =
          (renderTasks P today s).dom.overDueColumn.length ∧
      (renderTasks P today s).dom.inProgressCount + (renderTasks P today s).dom.completedCount +
          (renderTasks P today s).dom.overDueCount = (filteredTasks s).length := by
  have hperm := buckets_perm P today (filteredTasks s)
  simp only [renderTasks, groupByStatus_eq]
  refine ⟨?_, ?_, hperm, trivial, trivial, trivial, ?_⟩
  · intro t
    rw [← mem_filteredTasks]
    simp only [List.mem_filter, decide_eq_true_eq]
    constructor
    · rintro (h | h | h) <;> exact h.1
    · intro h
      rcases getTaskStatus_cases P today t with c | c | c
      · exact Or.inl ⟨h, c⟩
      · exact Or.inr (Or.inl ⟨h, c⟩)
      · exact Or.inr (Or.inr ⟨h, c⟩)
  · intro t
    simp only [List.mem_filter, decide_eq_true_eq]
    refine ⟨?_, ?_, ?_⟩
    · rintro ⟨⟨_, h1⟩, ⟨_, h2⟩⟩
      rw [h1] at h2
      exact absurd h2 (by decide)
    · rintro ⟨⟨_, h1⟩, ⟨_, h2⟩⟩
      rw [h1] at h2
      exact absurd h2 (by decide)
    · rintro ⟨⟨_, h1⟩, ⟨_, h2⟩⟩
      rw [h1] at h2
      exact absurd h2 (by decide)
  · have hlen := hperm.length_eq
    simp only [List.length_append] at hlen
    exact hlen

/-! ## The concrete JSON text round-trips -/

theorem hexValue_hexDigit (n : Nat) (h : n < 16) : hexValue (hexDigit n) = some n := by
  interval_cases n <;> decide

theorem readChars_append (r : Reader) (a b : List Char) :
    readChars r (a ++ b) = (readChars r a).bind (fun r' => readChars r' b) := by
  induction a generalizing r with
  | nil => simp [readChars]
  | cons c cs ih =>
    simp only [List.cons_append, readChars]
    cases readChar r c with
    | none => simp
    | some r' => simpa using ih r'

theorem readChars_escapeChar (c : Char) (isKey : Bool) (buf : List Char) (k : String)
    (m : List (String × String)) (it : List Task) :
    readChars ⟨.str isKey .plain, buf, k, m, it⟩ (escapeChar c) =
      some ⟨.str isKey .plain, c :: buf, k, m, it⟩ := by
  unfold escapeChar
  split
  · next h => subst h; simp [readChars, readChar, stringStep, unescape]
  split
  · next h => subst h; simp [readChars, readChar, stringStep, unescape]
  split
  · next h => subst h; simp [readChars, readChar, stringStep, unescape]
  split
  · next h => subst h; simp [readChars, readChar, stringStep, unescape]
  split
  · next h => subst h; simp [readChars, readChar, stringStep, unescape]
  split
  · next h => subst h; simp [readChars, readChar, stringStep, unescape]
  split
  · next h => subst h; simp [readChars, readChar, stringStep, unescape]
  split
  · next h1 h2 h3 h4 h5 h6 h7 h =>
    have hz : hexValue '0' = some 0 := by decide
    have ha : hexValue (hexDigit (c.toNat / 16)) = some (c.toNat / 16) :=
      hexValue_hexDigit _ (by omega)
    have hb : hexValue (hexDigit (c.toNat % 16)) = some (c.toNat % 16) :=
      hexValue_hexDigit _ (by omega)
    have hc : Char.ofNat (c.toNat / 16 * 16 + c.toNat % 16) = c := by
      rw [Nat.div_add_mod' c.toNat 16]
      exact Char.ofNat_toNat c
    simp [readChars, readChar, stringStep, hz, ha, hb, hc]
  · next h1 h2 h3 h4 h5 h6 h7 h =>
    simp [readChars, readChar, stringStep, h1, h2, h]

theorem readChars_escape (cs : List Char) (isKey : Bool) (buf : List Char) (k : String)
    (m : List (String × String)) (it : List Task) :
    readChars ⟨.str isKey .plain, buf, k, m, it⟩ (escape cs) =
      some ⟨.str isKey .plain, cs.reverse ++ buf, k, m, it⟩ := by
  induction cs generalizing buf with
  | nil => simp [escape, readChars]
  | cons c cs ih =>
    simp only [escape]
    rw [readChars_append, readChars_escapeChar, Option.some_bind, ih]
    simp


/-- A string literal whose opening quote has been read. -/
theorem readChars_literal (s : String) (isKey : Bool) (k : String)
    (m : List (String × String)) (it : List Task) (rest : List Char) :
    readChars ⟨.str isKey .plain, [], k, m, it⟩ (escape s.data ++ '"' :: rest) =
      readChars
        (if isKey then ⟨.afterKey, [], s, m, it⟩ else ⟨.afterValue, [], k, (k, s) :: m, it⟩)
        rest := by
  rw [readChars_append, readChars_escape, Option.some_bind]
  cases isKey <;> simp [readChars, readChar, stringStep]

/-- A member read after the opening quote of its key. -/
theorem readChars_member (key value : String) (k : String)
    (m : List (String × String)) (it : List Task) (rest : List Char) :
    readChars ⟨.str true .plain, [], k, m, it⟩
        (escape key.data ++ '"' :: ':' :: (quote value ++ rest)) =
      readChars ⟨.afterValue, [], key, (key, value) :: m, it⟩ rest := by
  rw [readChars_literal]
  simp only [if_true, quote, List.cons_append, List.append_assoc, List.singleton_append]
  rw [readChars, readChar]
  simp only [if_true]
  rw [readChars, readChar]
  simp only [if_true]
  rw [readChars_literal]
  simp

theorem mkTask_members (t : Task) :
    mkTask [("createdAt", t.createdAt), ("status", t.status), ("priority", t.priority),
      ("dueDate", t.dueDate), ("subject", t.subject), ("description", t.description),
      ("title", t.title), ("id", t.id)] = some t := by
  simp [mkTask, List.lookup]

/-- A task object read after its opening brace. -/
theorem readChars_object (t : Task) (buf : List Char) (k : String)
    (it : List Task) (rest : List Char) :
    readChars ⟨.objectOpen, buf, k, [], it⟩ ((stringifyTask t).tail ++ rest) =
      readChars ⟨.afterItem, [], "createdAt", [], it ++ [t]⟩ rest := by
  simp only [stringifyTask, member, quote, List.tail_cons, List.cons_append, List.append_assoc,
    List.nil_append]
  rw [readChars, readChar]
  simp only [if_true]
  have hm := fun key value k m it rest => readChars_member key value k m it rest
  simp only [quote, List.cons_append, List.append_assoc, List.nil_append] at hm
  rw [hm]
  iterate 7
    rw [readChars, readChar]
    simp only [if_true]
    rw [readChars, readChar]
    simp only [if_true]
    rw [hm]
  rw [readChars, readChar]
  simp [closeObject, mkTask_members]


/-- The objects of a non-empty array, read after the opening brace of the
first one. -/
theorem readChars_joinTasks (t : Task) (ts : List Task) (buf : List Char) (k : String)
    (it : List Task) (rest : List Char) :
    readChars ⟨.objectOpen, buf, k, [], it⟩ ((joinTasks (t :: ts)).tail ++ rest) =
      readChars ⟨.afterItem, [], "createdAt", [], it ++ t :: ts⟩ rest := by
  induction ts generalizing t buf k it with
  | nil =>
    simp only [joinTasks]
    exact readChars_object t buf k it rest
  | cons u us ih =>
    have hj : (joinTasks (t :: u :: us)).tail ++ rest =
        (stringifyTask t).tail ++ (',' :: '{' :: ((joinTasks (u :: us)).tail ++ rest)) := by
      have hu : joinTasks (u :: us) = '{' :: (joinTasks (u :: us)).tail := by
        cases us <;> simp [joinTasks, stringifyTask]
      conv_lhs => rw [joinTasks]
      rw [hu]
      simp [stringifyTask]
    rw [hj, readChars_object]
    rw [readChars, readChar]
    simp only [if_true]
    rw [readChars, readChar]
    simp only [if_true]
    rw [ih]
    simp

/-- The concrete JSON text of a list of tasks is read back as that list. -/
theorem jsonParse_jsonStringify (ts : List Task) :
    jsonParse (jsonStringify ts) = some ts := by
  cases ts with
  | nil => decide
  | cons t ts =>
    have hj : joinTasks (t :: ts) = '{' :: (joinTasks (t :: ts)).tail := by
      cases ts <;> simp [joinTasks, stringifyTask]
    unfold jsonParse jsonStringify
    simp only
    rw [hj]
    simp only [List.cons_append]
    rw [readChars, readChar]
    simp only [if_true]
    rw [readChars, readChar]
    simp only [if_true]
    rw [readChars_joinTasks]
    simp [readChars, readChar]

theorem jsonStringify_ne_empty (ts : List Task) : jsonStringify ts ≠ "" := by
  intro h
  have hd := congrArg String.data h
  simp [jsonStringify] at hd

/-! ## Projections of the operations -/

@[simp]
theorem renderTasks_tasks (P : Platform) (today : Int) (s : State) :
    (renderTasks P today s).tasks = s.tasks := rfl

@[simp]
theorem renderTasks_localStorage (P : Platform) (today : Int) (s : State) :
    (renderTasks P today s).localStorage = s.localStorage := rfl

@[simp]
theorem renderTasks_currentFilter (P : Platform) (today : Int) (s : State) :
    (renderTasks P today s).currentFilter = s.currentFilter := rfl

@[simp]
theorem saveTasks_tasks (P : Platform) (s : State) : (saveTasks P s).tasks = s.tasks := rfl

@[simp]
theorem saveTasks_currentFilter (P : Platform) (s : State) :
    (saveTasks P s).currentFilter = s.currentFilter := rfl

theorem saveTasks_stored (P : Platform) (s : State) :
    getItem (saveTasks P s).localStorage "taskyTasks" = some (P.stringify s.tasks) := by
  simp [saveTasks, getItem, setItem]

theorem createTask_tasks (P : Platform) (now : Int) (createdAt : String) (today : Int)
    (data : TaskData) (s : State) :
    (createTask P now createdAt today data s).tasks =
      s.tasks ++ [⟨toString now, data.title, data.description, data.subject, data.dueDate,
        data.priority, data.status, createdAt⟩] := rfl

/-! ## `findIndex` -/

theorem findIndex_eq_none (p : Task → Bool) (l : List Task) :
    findIndex p l = none ↔ ∀ t ∈ l, p t = false := by
  induction l with
  | nil => simp [findIndex]
  | cons a l ih =>
    by_cases h : p a = true
    · simp [findIndex, h]
    · simp only [Bool.not_eq_true] at h
      simp [findIndex, h, ih]

theorem findIndex_eq_some (p : Task → Bool) (l : List Task) (i : Nat)
    (h : findIndex p l = some i) :
    ∃ t, l[i]? = some t ∧ p t = true ∧ ∀ j u, j < i → l[j]? = some u → p u = false := by
  induction l generalizing i with
  | nil => simp [findIndex] at h
  | cons a l ih =>
    by_cases ha : p a = true
    · simp only [findIndex, ha, if_true, Option.some.injEq] at h
      subst h
      exact ⟨a, by simp, ha, by intro j u hj; omega⟩
    · simp only [Bool.not_eq_true] at ha
      simp only [findIndex, ha, Bool.false_eq_true, if_false, Option.map_eq_some'] at h
      obtain ⟨k, hk, rfl⟩ := h
      obtain ⟨t, ht, hpt, hbefore⟩ := ih k hk
      refine ⟨t, by simpa using ht, hpt, ?_⟩
      intro j u hj hu
      cases j with
      | zero =>
        simp only [List.getElem?_cons_zero, Option.some.injEq] at hu
        subst hu
        exact ha
      | succ j =>
        simp only [List.getElem?_cons_succ] at hu
        exact hbefore j u (by omega) hu

/-- What `updateTask` does when a task has the given id. -/
theorem updateTask_found (P : Platform) (today : Int) (id : String) (data : UpdateData)
    (s : State) (index : Nat) (old : Task)
    (hidx : findIndex (fun t => decide (t.id = id)) s.tasks = some index)
    (hold : s.tasks[index]? = some old) :
    updateTask P today id data s =
      renderTasks P today
        (saveTasks P { s with tasks := s.tasks.set index (spread old data) }) := by
  unfold updateTask
  rw [hidx]
  simp only
  rw [hold]


/-! ## Witnesses for the classification -/

/-- C1 at a concrete input: a completed task due in 2020, classified in 2023. -/
theorem getTaskStatus_completed_witness :
    taskC.status = "completed" ∧ getTaskStatus browser sampleNow taskC = "completed" :=
  ⟨by decide, getTaskStatus_completed browser sampleNow taskC (by decide)⟩

/-- C2 at a concrete input: an open task due in 2020, classified in 2023. -/
theorem getTaskStatus_not_completed_witness :
    taskA.status ≠ "completed" ∧
      (getTaskStatus browser sampleNow taskA = "over-due" ↔
        ∃ d, browser.parseDate taskA.dueDate = some d ∧ d < sampleNow) ∧
      ((¬ ∃ d, browser.parseDate taskA.dueDate = some d ∧ d < sampleNow) →
        getTaskStatus browser sampleNow taskA = "in-progress") ∧
      (browser.parseDate taskA.dueDate = some sampleNow →
        getTaskStatus browser sampleNow taskA = "in-progress") :=
  ⟨by decide, getTaskStatus_not_completed browser sampleNow taskA (by decide)⟩

/-! ## Decimal strings of clock readings -/

theorem digitChar_value (k : Nat) (h : k < 10) :
    (Nat.digitChar k).toNat - 48 = k ∧ Nat.digitChar k ≠ '-' := by
  interval_cases k <;> decide

theorem digitsValue_digitChar (acc k : Nat) (ds : List Char) (h : k < 10) :
    digitsValue acc (Nat.digitChar k :: ds) = digitsValue (acc * 10 + k) ds := by
  show digitsValue (acc * 10 + ((Nat.digitChar k).toNat - 48)) ds = _
  rw [(digitChar_value k h).1]

theorem digitsValue_toDigitsCore (fuel n : Nat) (ds : List Char) (h : n < fuel) :
    digitsValue 0 (Nat.toDigitsCore 10 fuel n ds) = digitsValue n ds := by
  induction fuel generalizing n ds with
  | zero => omega
  | succ fuel ih =>
    have hk : n % 10 < 10 := Nat.mod_lt _ (by decide)
    rw [Nat.toDigitsCore]
    by_cases h0 : n / 10 = 0
    · rw [if_pos h0, digitsValue_digitChar 0 _ ds hk]
      have : 0 * 10 + n % 10 = n := by omega
      rw [this]
    · rw [if_neg h0, ih (n / 10) _ (by omega), digitsValue_digitChar _ _ ds hk]
      rw [Nat.div_add_mod' n 10]

theorem toDigitsCore_head (fuel n : Nat) (ds : List Char) (h : 0 < fuel) :
    ∃ k, k < 10 ∧ ∃ tl, Nat.toDigitsCore 10 fuel n ds = Nat.digitChar k :: tl := by
  induction fuel generalizing n ds with
  | zero => omega
  | succ fuel ih =>
    simp only [Nat.toDigitsCore]
    split
    · exact ⟨n % 10, Nat.mod_lt _ (by decide), ds, rfl⟩
    · rcases Nat.eq_zero_or_pos fuel with h0 | h0
      · subst h0
        exact ⟨n % 10, Nat.mod_lt _ (by decide), ds, by simp [Nat.toDigitsCore]⟩
      · exact ih _ _ h0

theorem readInt_toString (i : Int) : readInt (toString i) = i := by
  cases i with
  | ofNat m =>
    obtain ⟨k, hk, tl, htl⟩ := toDigitsCore_head (m + 1) m [] (by omega)
    have hv := digitsValue_toDigitsCore (m + 1) m [] (by omega)
    have hdata : (toString (Int.ofNat m)).data = Nat.toDigitsCore 10 (m + 1) m [] := rfl
    unfold readInt
    rw [hdata]
    rw [htl] at hv ⊢
    simp only [(digitChar_value k hk).2, if_false]
    rw [hv]
    rfl
  | negSucc m =>
    have hv := digitsValue_toDigitsCore (m + 1 + 1) (m + 1) [] (by omega)
    have hdata : (toString (Int.negSucc m)).data =
        '-' :: Nat.toDigitsCore 10 (m + 1 + 1) (m + 1) [] := rfl
    unfold readInt
    rw [hdata]
    simp only [if_true]
    rw [hv]
    rfl

/-- The decimal strings of two integers are equal only for equal integers. -/
theorem toString_int_injective (i j : Int) (h : toString i = toString j) : i = j := by
  rw [← readInt_toString i, ← readInt_toString j, h]

/-! ## Identifiers assigned by `createTask` -/

/-- C4, counterexample: two `createTask` calls at the same clock reading. The
list after the first call has distinct ids, the list after the second has a
repeated id. -/
theorem createTask_same_clock_repeats_id :
    ((createTask browser sampleNow sampleCreatedAt sampleNow sampleData
        initialState).tasks.map Task.id).Nodup ∧
      ¬ ((createTask browser sampleNow sampleCreatedAt sampleNow sampleData
          (createTask browser sampleNow sampleCreatedAt sampleNow sampleData
            initialState)).tasks.map Task.id).Nodup := by
  simp [createTask_tasks, initialState]

/-- C4, amended: `createTask` appends a task whose id is the decimal string of
the clock reading; from a list with pairwise distinct ids the resulting list
has pairwise distinct ids exactly when that string is the id of no task already
in the list, which is the case when every id in the list is the decimal string
of a different clock reading. -/
theorem createTask_ids_nodup_iff (P : Platform) (now : Int) (createdAt : String) (today : Int)
    (data : TaskData) (s : State) (h : (s.tasks.map Task.id).Nodup) :
    (createTask P now createdAt today data s).tasks.map Task.id =
        s.tasks.map Task.id ++ [toString now] ∧
      (((createTask P now createdAt today data s).tasks.map Task.id).Nodup ↔
        ∀ t ∈ s.tasks, t.id ≠ toString now) ∧
      ((∀ t ∈ s.tasks, ∃ m : Int, t.id = toString m ∧ m ≠ now) →
        ((createTask P now createdAt today data s).tasks.map Task.id).Nodup) := by
  have hiff : ((createTask P now createdAt today data s).tasks.map Task.id).Nodup ↔
      ∀ t ∈ s.tasks, t.id ≠ toString now := by
    rw [createTask_tasks]
    simp only [List.map_append, List.map_cons, List.map_nil]
    rw [List.nodup_append]
    simp only [h, List.nodup_singleton, true_and, List.disjoint_singleton, List.mem_map,
      not_exists, not_and]
  refine ⟨by rw [createTask_tasks]; simp, hiff, ?_⟩
  intro hclock
  rw [hiff]
  intro t ht heq
  obtain ⟨m, hm, hne⟩ := hclock t ht
  rw [hm] at heq
  exact hne (toString_int_injective m now heq)

/-- C4, amended, at a concrete input: a second task created one millisecond
after the first. -/
theorem createTask_ids_nodup_iff_witness :
    ((createTask browser sampleNow sampleCreatedAt sampleNow sampleData
        initialState).tasks.map Task.id).Nodup ∧
      (createTask browser (sampleNow + 1) sampleCreatedAt sampleNow sampleData
          (createTask browser sampleNow sampleCreatedAt sampleNow sampleData
            initialState)).tasks.map Task.id = ["1700000000000", "1700000000001"] ∧
      ((createTask browser (sampleNow + 1) sampleCreatedAt sampleNow sampleData
          (createTask browser sampleNow sampleCreatedAt sampleNow sampleData
            initialState)).tasks.map Task.id).Nodup :=
  ⟨by decide, by decide,
    (createTask_ids_nodup_iff browser (sampleNow + 1) sampleCreatedAt sampleNow sampleData
      (createTask browser sampleNow sampleCreatedAt sampleNow sampleData initialState)
      (by decide)).2.2 (by
        intro t ht
        refine ⟨sampleNow, ?_, by decide⟩
        rw [createTask_tasks] at ht
        simp only [initialState, List.nil_append, List.mem_singleton] at ht
        rw [ht])⟩

/-! ## `updateTask` -/

/-- C5, counterexample: a payload that supplies `id` and `createdAt` replaces
both on the matching task. -/
theorem updateTask_replaces_id_and_createdAt :
    (stateOf [taskA] "all").tasks.map (fun t => (t.id, t.createdAt)) =
        [("1", "2019-12-01T08:00:00.000Z")] ∧
      (updateTask browser sampleNow "1"
          { UpdateData.empty with id := some "9", createdAt := some "2000-01-01T00:00:00.000Z" }
          (stateOf [taskA] "all")).tasks.map (fun t => (t.id, t.createdAt)) =
        [("9", "2000-01-01T00:00:00.000Z")] := by
  decide

/-- C5, amended: when some task has the given id, `updateTask` replaces the
first such task by the object spread of that task and the payload. Each
property supplied by the payload takes the payload value, `id` and `createdAt`
included; each property not supplied keeps its value, so `id` and `createdAt`
are unchanged whenever the payload supplies neither. The list keeps its length
and every other position keeps its task. -/
theorem updateTask_spreads_payload (P : Platform) (today : Int) (id : String)
    (data : UpdateData) (s : State) (index : Nat)
    (hidx : findIndex (fun t => decide (t.id = id)) s.tasks = some index) :
    ∃ old, s.tasks[index]? = some old ∧ old.id = id ∧
      (∀ j u, j < index → s.tasks[j]? = some u → u.id ≠ id) ∧
      (updateTask P today id data s).tasks[index]? = some (spread old data) ∧
      (spread old data).id = data.id.getD old.id ∧
      (spread old data).title = data.title.getD old.title ∧
      (spread old data).description = data.description.getD old.description ∧
      (spread old data).subject = data.subject.getD old.subject ∧
      (spread old data).dueDate = data.dueDate.getD old.dueDate ∧
      (spread old data).priority = data.priority.getD old.priority ∧
      (spread old data).status = data.status.getD old.status ∧
      (spread old data).createdAt = data.createdAt.getD old.createdAt ∧
      (data.id = none → (spread old data).id = old.id) ∧
      (data.createdAt = none → (spread old data).createdAt = old.createdAt) ∧
      (updateTask P today id data s).tasks.length = s.tasks.length ∧
      (∀ j, j ≠ index → (updateTask P today id data s).tasks[j]? = s.tasks[j]?) := by
  obtain ⟨old, hold, hp, hbefore⟩ := findIndex_eq_some _ _ _ hidx
  have hlt : index < s.tasks.length := by
    rcases Nat.lt_or_ge index s.tasks.length with h | h
    · exact h
    · rw [List.getElem?_eq_none h] at hold
      exact absurd hold (by simp)
  refine ⟨old, hold, by simpa using hp, ?_, ?_, rfl, rfl, rfl, rfl, rfl, rfl, rfl, rfl, ?_, ?_,
    ?_, ?_⟩
  · intro j u hj hu
    simpa using hbefore j u hj hu
  · rw [updateTask_found P today id data s index old hidx hold]
    simp [List.getElem?_set, hlt]
  · intro h
    simp [spread, h]
  · intro h
    simp [spread, h]
  · rw [updateTask_found P today id data s index old hidx hold]
    simp
  · intro j hj
    rw [updateTask_found P today id data s index old hidx hold]
    simp [List.getElem?_set, Ne.symm hj]

/-- C5, amended, at a concrete input: the six form fields written over the
second task of a two-task list. -/
theorem updateTask_spreads_payload_witness :
    findIndex (fun t => decide (t.id = "2")) (stateOf [taskA, taskB] "all").tasks = some 1 ∧
      (updateTask browser sampleNow "2" sampleData.toUpdate (stateOf [taskA, taskB] "all")).tasks =
        [taskA, ⟨"2", "Essay", "Write the history essay", "History", "2030-01-01", "high",
          "in-progress", "2019-12-02T08:00:00.000Z"⟩] ∧
      ∃ old, (stateOf [taskA, taskB] "all").tasks[1]? = some old ∧ old.id = "2" ∧
        (updateTask browser sampleNow "2" sampleData.toUpdate
          (stateOf [taskA, taskB] "all")).tasks[1]? = some (spread old sampleData.toUpdate) :=
  ⟨by decide, by decide,
    (updateTask_spreads_payload browser sampleNow "2" sampleData.toUpdate
      (stateOf [taskA, taskB] "all") 1 (by decide)).imp
      (fun _ h => ⟨h.1, h.2.1, h.2.2.2.1⟩)⟩

/-- C6: `updateTask` with an id that no task has returns the state as it was:
same task list, same storage, same page, and it is a total function (nothing
is thrown). -/
theorem updateTask_unknown_id (P : Platform) (today : Int) (id : String) (data : UpdateData)
    (s : State) (h : ∀ t ∈ s.tasks, t.id ≠ id) :
    updateTask P today id data s = s := by
  have hnone : findIndex (fun t => decide (t.id = id)) s.tasks = none := by
    rw [findIndex_eq_none]
    intro t ht
    simpa using h t ht
  unfold updateTask
  rw [hnone]

/-- C6 at a concrete input: id "7" in a list whose ids are "1" and "2". -/
theorem updateTask_unknown_id_witness :
    (∀ t ∈ (stateOf [taskA, taskB] "all").tasks, t.id ≠ "7") ∧
      updateTask browser sampleNow "7" completedUpdate (stateOf [taskA, taskB] "all") =
        stateOf [taskA, taskB] "all" :=
  ⟨by decide, updateTask_unknown_id browser sampleNow "7" completedUpdate
    (stateOf [taskA, taskB] "all") (by decide)⟩


/-! ## `deleteTask` -/

/-- C7, counterexample: a confirmed `deleteTask` does not always shorten the
list by one. With an id that no task has the length stays 2; with an id that
two tasks share the length drops from 3 to 1. -/
theorem deleteTask_length_not_one_less :
    (stateOf [taskA, taskB] "all").tasks.length = 2 ∧
      (deleteTask browser sampleNow true "7" (stateOf [taskA, taskB] "all")).tasks.length = 2 ∧
      (stateOf [taskA, taskB, taskA2] "all").tasks.length = 3 ∧
      (deleteTask browser sampleNow true "1"
        (stateOf [taskA, taskB, taskA2] "all")).tasks.length = 1 := by
  decide

/-- C7, amended: a declined `deleteTask` returns the state as it was (list,
storage and page). A confirmed `deleteTask` keeps exactly the tasks whose id
differs, in order, so no task with that id remains and the length drops by the
number of tasks that had the id: by exactly one when exactly one task had it.
The new list is what is written to storage. -/
theorem deleteTask_effect (P : Platform) (today : Int) (id : String) (s : State) :
    deleteTask P today false id s = s ∧
      (deleteTask P today true id s).tasks = s.tasks.filter (fun t => decide (t.id ≠ id)) ∧
      (∀ t ∈ (deleteTask P today true id s).tasks, t.id ≠ id) ∧
      (deleteTask P today true id s).tasks.length +
          s.tasks.countP (fun t => decide (t.id = id)) = s.tasks.length ∧
      (s.tasks.countP (fun t => decide (t.id = id)) = 1 →
        (deleteTask P today true id s).tasks.length + 1 = s.tasks.length) ∧
      getItem (deleteTask P today true id s).localStorage "taskyTasks" =
        some (P.stringify (deleteTask P today true id s).tasks) := by
  have htasks : (deleteTask P today true id s).tasks =
      s.tasks.filter (fun t => decide (t.id ≠ id)) := by
    simp [deleteTask]
  have hlen : ∀ l : List Task, (l.filter (fun t => decide (t.id ≠ id))).length +
      l.countP (fun t => decide (t.id = id)) = l.length := by
    intro l
    induction l with
    | nil => simp
    | cons a l ih =>
      by_cases h : a.id = id
      · simp only [List.filter_cons, List.countP_cons, h, ne_eq, not_true_eq_false,
          decide_False, decide_True, Bool.false_eq_true, if_false, if_true, List.length_cons]
        simp only [ne_eq] at ih
        omega
      · simp only [List.filter_cons, List.countP_cons, h, ne_eq, not_false_eq_true,
          decide_False, decide_True, Bool.false_eq_true, if_false, if_true, List.length_cons]
        simp only [ne_eq] at ih
        omega
  refine ⟨by simp [deleteTask], htasks, ?_, ?_, ?_, ?_⟩
  · intro t ht
    rw [htasks, List.mem_filter] at ht
    simpa using ht.2
  · rw [htasks]
    exact hlen s.tasks
  · intro h1
    rw [htasks]
    have := hlen s.tasks
    omega
  · simp only [deleteTask, if_true, renderTasks_localStorage, renderTasks_tasks,
      saveTasks_tasks]
    exact saveTasks_stored P _

/-- C7, amended, at a concrete input: deleting id "2" from a list where one
task has it. -/
theorem deleteTask_effect_witness :
    (stateOf [taskA, taskB] "all").tasks.countP (fun t => decide (t.id = "2")) = 1 ∧
      (deleteTask browser sampleNow true "2" (stateOf [taskA, taskB] "all")).tasks.length + 1 =
        (stateOf [taskA, taskB] "all").tasks.length :=
  ⟨by decide, (deleteTask_effect browser sampleNow "2" (stateOf [taskA, taskB] "all")).2.2.2.2.1
    (by decide)⟩

/-! ## Persistence -/

theorem browser_roundTrips : browser.RoundTrips :=
  fun ts => ⟨jsonParse_jsonStringify ts, jsonStringify_ne_empty ts⟩

/-- C8: on a platform whose JSON text round-trips, `loadTasks` after
`createTask` returns the previous list followed by one new task that carries
the six fields of the form record (its id is the decimal string of the clock
reading); and `loadTasks` returns the empty list when nothing is stored under
the key 'taskyTasks'. -/
theorem loadTasks_createTask (P : Platform) (hP : P.RoundTrips) (now : Int)
    (createdAt : String) (today : Int) (data : TaskData) (s : State) :
    (∃ task, loadTasks P (createTask P now createdAt today data s).localStorage =
          some (s.tasks ++ [task]) ∧
        (createTask P now createdAt today data s).tasks = s.tasks ++ [task] ∧
        task.title = data.title ∧ task.description = data.description ∧
        task.subject = data.subject ∧ task.dueDate = data.dueDate ∧
        task.priority = data.priority ∧ task.status = data.status ∧
        task.id = toString now ∧ task.createdAt = createdAt) ∧
      (∀ st : Storage, getItem st "taskyTasks" = none → loadTasks P st = some []) := by
  constructor
  · refine ⟨⟨toString now, data.title, data.description, data.subject, data.dueDate,
      data.priority, data.status, createdAt⟩, ?_, rfl, rfl, rfl, rfl, rfl, rfl, rfl, rfl, rfl⟩
    have hstored : getItem (createTask P now createdAt today data s).localStorage "taskyTasks" =
        some (P.stringify (s.tasks ++ [⟨toString now, data.title, data.description,
          data.subject, data.dueDate, data.priority, data.status, createdAt⟩])) := by
      simp only [createTask, renderTasks_localStorage]
      exact saveTasks_stored P _
    unfold loadTasks
    rw [hstored]
    simp only
    rw [if_neg (hP _).2, (hP _).1]
  · intro st hst
    unfold loadTasks
    rw [hst]

/-- C8 at a concrete input: the concrete JSON platform, a task created in a
store that already holds two tasks. -/
theorem loadTasks_createTask_witness :
    browser.RoundTrips ∧
      (∃ task, loadTasks browser (createTask browser sampleNow sampleCreatedAt sampleNow
            sampleData (stateOf [taskA, taskB] "all")).localStorage =
          some ([taskA, taskB] ++ [task]) ∧
        task.title = sampleData.title ∧ task.status = sampleData.status) ∧
      loadTasks browser emptyStorage = some [] :=
  ⟨browser_roundTrips,
    (loadTasks_createTask browser browser_roundTrips sampleNow sampleCreatedAt sampleNow
      sampleData (stateOf [taskA, taskB] "all")).1.imp
      (fun _ h => ⟨h.1, h.2.2.1, h.2.2.2.2.2.2.2.1⟩),
    (loadTasks_createTask browser browser_roundTrips sampleNow sampleCreatedAt sampleNow
      sampleData (stateOf [taskA, taskB] "all")).2 emptyStorage rfl⟩


/-! ## `sortByDate` -/

theorem sortInsert_perm (cmp : Task → Task → Option Int) (a : Task) (l : List Task) :
    (sortInsert cmp a l).Perm (a :: l) := by
  induction l with
  | nil => simp [sortInsert]
  | cons b bs ih =>
    unfold sortInsert
    split
    · exact List.Perm.refl _
    · exact (List.Perm.cons b ih).trans (List.Perm.swap a b bs)

theorem sort_perm (cmp : Task → Task → Option Int) (l : List Task) :
    (sort cmp l).Perm l := by
  induction l with
  | nil => simp [sort]
  | cons a l ih =>
    unfold sort
    exact (sortInsert_perm cmp a _).trans (List.Perm.cons a ih)

theorem notAfter_compareDueDate (P : Platform) (a b : Task) (x y : Int)
    (ha : P.parseDate a.dueDate = some x) (hb : P.parseDate b.dueDate = some y) :
    notAfter (compareDueDate P) a b = true ↔ x ≤ y := by
  simp [notAfter, compareDueDate, ha, hb]

theorem sortInsert_sorted (P : Platform) (a : Task) (l : List Task)
    (ha : ∃ x, P.parseDate a.dueDate = some x)
    (hl : ∀ t ∈ l, ∃ x, P.parseDate t.dueDate = some x)
    (hs : l.Pairwise (dueNotLater P)) :
    (sortInsert (compareDueDate P) a l).Pairwise (dueNotLater P) := by
  induction l with
  | nil => simp [sortInsert]
  | cons b bs ih =>
    obtain ⟨x, hx⟩ := ha
    obtain ⟨y, hy⟩ := hl b (by simp)
    have hbs : ∀ t ∈ bs, ∃ x, P.parseDate t.dueDate = some x :=
      fun t ht => hl t (by simp [ht])
    rw [List.pairwise_cons] at hs
    unfold sortInsert
    split
    · next hle =>
      rw [notAfter_compareDueDate P a b x y hx hy] at hle
      rw [List.pairwise_cons]
      refine ⟨?_, List.pairwise_cons.mpr hs⟩
      intro t ht
      rcases List.mem_cons.mp ht with rfl | hmem
      · exact ⟨x, y, hx, hy, hle⟩
      · obtain ⟨y', z, hy', hz, hyz⟩ := hs.1 t hmem
        rw [hy] at hy'
        cases hy'
        exact ⟨x, z, hx, hz, by omega⟩
    · next hle =>
      rw [notAfter_compareDueDate P a b x y hx hy] at hle
      have hyx : y ≤ x := by omega
      rw [List.pairwise_cons]
      refine ⟨?_, ih hbs hs.2⟩
      intro t ht
      rcases (List.mem_cons.mp ((sortInsert_perm _ a bs).mem_iff.mp ht)) with rfl | hmem
      · exact ⟨y, x, hy, hx, hyx⟩
      · exact hs.1 t hmem

theorem sort_sorted (P : Platform) (l : List Task)
    (hl : ∀ t ∈ l, ∃ x, P.parseDate t.dueDate = some x) :
    (sort (compareDueDate P) l).Pairwise (dueNotLater P) := by
  induction l with
  | nil => simp [sort]
  | cons a l ih =>
    unfold sort
    have hl' : ∀ t ∈ l, ∃ x, P.parseDate t.dueDate = some x := fun t ht => hl t (by simp [ht])
    refine sortInsert_sorted P a _ (hl a (by simp)) ?_ (ih hl')
    intro t ht
    exact hl' t ((sort_perm _ l).mem_iff.mp ht)

/-- C9: when every due date string of the list denotes a valid date,
`sortByDate` leaves a permutation of the list in which every task is due no
later than each task after it, and the storage is left as it was. -/
theorem sortByDate_sorted_perm (P : Platform) (today : Int) (s : State)
    (hvalid : ∀ t ∈ s.tasks, P.parseDate t.dueDate ≠ none) :
    (sortByDate P today s).tasks.Perm s.tasks ∧
      (sortByDate P today s).tasks.Pairwise
        (fun a b => ∃ x y, P.parseDate a.dueDate = some x ∧ P.parseDate b.dueDate = some y ∧
          x ≤ y) ∧
      (sortByDate P today s).localStorage = s.localStorage :=
  ⟨sort_perm _ _,
    sort_sorted P s.tasks (fun t ht => Option.ne_none_iff_exists'.mp (hvalid t ht)), rfl⟩

/-- C9 at a concrete input: three tasks due 2030, 2020-06 and 2020-01. -/
theorem sortByDate_sorted_perm_witness :
    (∀ t ∈ (stateOf [taskB, taskC, taskA] "all").tasks, browser.parseDate t.dueDate ≠ none) ∧
      (sortByDate browser sampleNow (stateOf [taskB, taskC, taskA] "all")).tasks =
        [taskA, taskC, taskB] ∧
      (sortByDate browser sampleNow (stateOf [taskB, taskC, taskA] "all")).tasks.Perm
        (stateOf [taskB, taskC, taskA] "all").tasks :=
  ⟨by decide, by decide,
    (sortByDate_sorted_perm browser sampleNow (stateOf [taskB, taskC, taskA] "all")
      (by decide)).1⟩


/-! ## Completing an over-due task -/

theorem mem_completedColumn (P : Platform) (today : Int) (s : State) (t : Task) :
    t ∈ (renderTasks P today s).dom.completedColumn ↔
      t ∈ filteredTasks s ∧ getTaskStatus P today t = "completed" := by
  simp [renderTasks, groupByStatus_eq]

theorem mem_overDueColumn (P : Platform) (today : Int) (s : State) (t : Task) :
    t ∈ (renderTasks P today s).dom.overDueColumn ↔
      t ∈ filteredTasks s ∧ getTaskStatus P today t = "over-due" := by
  simp [renderTasks, groupByStatus_eq]

theorem mem_inProgressColumn (P : Platform) (today : Int) (s : State) (t : Task) :
    t ∈ (renderTasks P today s).dom.inProgressColumn ↔
      t ∈ filteredTasks s ∧ getTaskStatus P today t = "in-progress" := by
  simp [renderTasks, groupByStatus_eq]

/-- C10, counterexample. First input: two over-due tasks share id "1"; after
`updateTask("1", {status: 'completed'})` the second of them is unchanged, still
classified 'over-due' and still in the over-due column. Second input: the
filter is 'high' and the over-due task has priority 'low'; after the update
the task is classified 'completed' but the completed column is empty. -/
theorem updateTask_completed_not_always_moved :
    (taskA2 ∈ (stateOf [taskA, taskA2] "all").tasks ∧ taskA2.id = "1" ∧
      getTaskStatus browser sampleNow taskA2 = "over-due" ∧
      taskA2 ∈ (updateTask browser sampleNow "1" completedUpdate
        (stateOf [taskA, taskA2] "all")).tasks ∧
      taskA2 ∈ (updateTask browser sampleNow "1" completedUpdate
        (stateOf [taskA, taskA2] "all")).dom.overDueColumn ∧
      taskA2 ∉ (updateTask browser sampleNow "1" completedUpdate
        (stateOf [taskA, taskA2] "all")).dom.completedColumn) ∧
    (taskA ∈ (stateOf [taskA, taskB] "high").tasks ∧ taskA.id = "1" ∧
      getTaskStatus browser sampleNow taskA = "over-due" ∧
      (updateTask browser sampleNow "1" completedUpdate
        (stateOf [taskA, taskB] "high")).tasks = [{ taskA with status := "completed" }, taskB] ∧
      (updateTask browser sampleNow "1" completedUpdate
        (stateOf [taskA, taskB] "high")).dom.completedColumn = []) := by
  decide

/-- C10, amended: let the first task with id `i` be classified 'over-due' at
time `today`. Before the update it is in the over-due column exactly when it
passes the priority filter. After `updateTask(i, {status: 'completed'})` the
task at that position is the old one with status 'completed': it keeps id `i`,
is classified 'completed' at `today`, is in neither the over-due nor the
in-progress column, and is in the completed column exactly when it passes the
priority filter (filter 'all' or equal to its priority). When the ids of the
list are pairwise distinct it is the only task with id `i`. -/
theorem updateTask_completed_moves (P : Platform) (today : Int) (i : String) (s : State)
    (index : Nat) (old : Task)
    (hidx : findIndex (fun t => decide (t.id = i)) s.tasks = some index)
    (hold : s.tasks[index]? = some old)
    (hover : getTaskStatus P today old = "over-due") :
    (old ∈ (renderTasks P today s).dom.overDueColumn ↔
        (s.currentFilter = "all" ∨ old.priority = s.currentFilter)) ∧
      (updateTask P today i completedUpdate s).tasks[index]? =
        some { old with status := "completed" } ∧
      ({ old with status := "completed" } : Task).id = i ∧
      getTaskStatus P today { old with status := "completed" } = "completed" ∧
      ({ old with status := "completed" } : Task) ∉
        (updateTask P today i completedUpdate s).dom.overDueColumn ∧
      ({ old with status := "completed" } : Task) ∉
        (updateTask P today i completedUpdate s).dom.inProgressColumn ∧
      (({ old with status := "completed" } : Task) ∈
          (updateTask P today i completedUpdate s).dom.completedColumn ↔
        (s.currentFilter = "all" ∨ old.priority = s.currentFilter)) ∧
      ((s.tasks.map Task.id).Nodup →
        ∀ t ∈ (updateTask P today i completedUpdate s).tasks, t.id = i →
          t = { old with status := "completed" }) := by
  obtain ⟨old', hold', hp, -⟩ := findIndex_eq_some _ _ _ hidx
  rw [hold] at hold'
  cases hold'
  have hid : old.id = i := by simpa using hp
  have hlt : index < s.tasks.length := by
    rcases Nat.lt_or_ge index s.tasks.length with h | h
    · exact h
    · rw [List.getElem?_eq_none h] at hold
      exact absurd hold (by simp)
  have hmem : old ∈ s.tasks := List.mem_iff_getElem?.mpr ⟨index, hold⟩
  have hspread : spread old completedUpdate = { old with status := "completed" } := rfl
  have hcompleted : getTaskStatus P today { old with status := "completed" } = "completed" := by
    simp [getTaskStatus]
  have hupd := updateTask_found P today i completedUpdate s index old hidx hold
  rw [hspread] at hupd
  have hat : (updateTask P today i completedUpdate s).tasks[index]? =
      some { old with status := "completed" } := by
    rw [hupd]
    simp [List.getElem?_set, hlt]
  have hnew : ({ old with status := "completed" } : Task) ∈
      (updateTask P today i completedUpdate s).tasks := List.mem_iff_getElem?.mpr ⟨index, hat⟩
  refine ⟨?_, hat, hid, hcompleted, ?_, ?_, ?_, ?_⟩
  · rw [mem_overDueColumn, mem_filteredTasks]
    simp [hmem, hover]
  · rw [hupd, mem_overDueColumn, hcompleted]
    simp
  · rw [hupd, mem_inProgressColumn, hcompleted]
    simp
  · rw [hupd] at hnew
    rw [hupd, mem_completedColumn, mem_filteredTasks]
    simp only [renderTasks_tasks, saveTasks_tasks] at hnew
    simp [hnew, hcompleted]
  · intro hnodup t ht hti
    obtain ⟨j, hj⟩ := List.mem_iff_getElem?.mp ht
    by_cases hji : j = index
    · subst hji
      rw [hat] at hj
      exact (Option.some.inj hj).symm
    · exfalso
      rw [hupd] at hj
      simp only [renderTasks_tasks, saveTasks_tasks, List.getElem?_set, Ne.symm hji,
        if_false] at hj
      have h1 : (s.tasks.map Task.id)[index]? = (s.tasks.map Task.id)[j]? := by
        rw [List.getElem?_map, List.getElem?_map, hold, hj]
        simp [hid, hti]
      exact hji (List.getElem?_inj (by simpa using hlt) hnodup h1).symm

/-- C10, amended, at a concrete input: the over-due task "1" of a two-task
list under the filter 'all'. -/
theorem updateTask_completed_moves_witness :
    findIndex (fun t => decide (t.id = "1")) (stateOf [taskA, taskB] "all").tasks = some 0 ∧
      getTaskStatus browser sampleNow taskA = "over-due" ∧
      (renderTasks browser sampleNow (stateOf [taskA, taskB] "all")).dom.overDueColumn =
        [taskA] ∧
      (updateTask browser sampleNow "1" completedUpdate
        (stateOf [taskA, taskB] "all")).dom.completedColumn =
        [{ taskA with status := "completed" }] ∧
      (updateTask browser sampleNow "1" completedUpdate
        (stateOf [taskA, taskB] "all")).dom.overDueColumn = [] ∧
      getTaskStatus browser sampleNow { taskA with status := "completed" } = "completed" :=
  ⟨by decide, by decide, by decide, by decide, by decide,
    (updateTask_completed_moves browser sampleNow "1" (stateOf [taskA, taskB] "all") 0 taskA
      (by decide) (by decide) (by decide)).2.2.2.1⟩

/-! ## The example of the specification -/

/-- Three tasks at `sampleNow` under the filter 'all': the open task due in
2020 is over-due, the completed task due in 2020 is completed, the open task
due in 2030 is in progress; every counter shows 1. -/
theorem renderTasks_example :
    (renderTasks browser sampleNow (stateOf [taskA, taskB, taskC] "all")).dom.overDueColumn =
        [taskA] ∧
      (renderTasks browser sampleNow (stateOf [taskA, taskB, taskC] "all")).dom.completedColumn =
        [taskC] ∧
      (renderTasks browser sampleNow (stateOf [taskA, taskB, taskC] "all")).dom.inProgressColumn =
        [taskB] ∧
      (renderTasks browser sampleNow (stateOf [taskA, taskB, taskC] "all")).dom.overDueCount = 1 ∧
      (renderTasks browser sampleNow (stateOf [taskA, taskB, taskC] "all")).dom.completedCount = 1 ∧
      (renderTasks browser sampleNow (stateOf [taskA, taskB, taskC] "all")).dom.inProgressCount =
        1 := by
  decide

/-- Tasks with equal due dates keep their relative order under the sort. -/
theorem sort_keeps_order_of_equal_dates :
    sort (compareDueDate browser) [taskB, { taskA with dueDate := "2030-01-01" }, taskC] =
      [taskC, taskB, { taskA with dueDate := "2030-01-01" }] := by
  decide

end Tasky
